import Mathlib

/-!
Verification development for the deterministic text-processing and matching
engine of the Skill_Sync_AI repository (`src/utils/ats.py`).

Strings are modelled by Lean `String` (a packed `List Char`); Python's
whitespace class, word-character class and case folding are modelled on the
ASCII fragment, which the claims' inputs live in.  Python `float` scores are
modelled as exact rationals (`ℚ`); at every concrete score appearing in the
claims the IEEE-754 double computation of the code yields exactly the same
value, and the monotonicity facts proved below hold for both semantics since
rounding is monotone.  External collaborators (the Gemini service, the
sklearn TF-IDF vectorizer, the two PDF backends) are modelled as oracle
parameters describing their observable outcome (`Except` for fallible calls),
exactly where the Python code wraps them in `try/except`.
-/

/-! ### Definitions: shallow embedding of `src/utils/ats.py` -/

/-- Python's whitespace class `\s` on the ASCII fragment: the six characters
matched by `str.strip()` and by the regex class `\s` for ASCII text. -/
def isPySpace (c : Char) : Bool :=
  c == ' ' || c == '\t' || c == '\n' || c == '\r' || c == '\x0b' || c == '\x0c'

/-- Python's word-character class `\w` on the ASCII fragment: letters, digits
and underscore. -/
def isPyWord (c : Char) : Bool :=
  c.isAlphanum || c == '_'

/-- The allow-set of `clean_text` (ats.py line 424): word characters,
whitespace and the punctuation `@ . + - ( ) & ,`. -/
def isAllowedChar (c : Char) : Bool :=
  isPyWord c || isPySpace c ||
    c == '@' || c == '.' || c == '+' || c == '-' ||
    c == '(' || c == ')' || c == '&' || c == ','

/-- Python `str.strip()` on a character list: drop leading and trailing
whitespace. -/
def stripList (l : List Char) : List Char :=
  ((l.dropWhile isPySpace).reverse.dropWhile isPySpace).reverse

/-- One left-to-right pass of the `re.sub` at ats.py line 422, collapsing
every maximal whitespace run to a single space; the flag records whether the
previous character was part of a whitespace run. -/
def collapseWs : Bool → List Char → List Char
  | _, [] => []
  | true, c :: rest =>
    if isPySpace c then collapseWs true rest
    else c :: collapseWs false rest
  | false, c :: rest =>
    if isPySpace c then ' ' :: collapseWs true rest
    else c :: collapseWs false rest

/-- The body of `ResumeParser.clean_text` (ats.py lines 419-425) on character
lists: strip, collapse whitespace runs to single spaces, then delete every
character outside the allow-set. -/
def cleanChars (l : List Char) : List Char :=
  (collapseWs false (stripList l)).filter isAllowedChar

/-- `ResumeParser.clean_text` (ats.py lines 419-425). -/
def clean_text (s : String) : String :=
  ⟨cleanChars s.data⟩

/-- Python `str.lower()` on the ASCII fragment. -/
def pyLower (s : String) : String :=
  ⟨s.data.map Char.toLower⟩

/-- Python `str.strip()`. -/
def pyStrip (s : String) : String :=
  ⟨stripList s.data⟩

/-- Python `str.split()` with no separator (the `word_tokenize` fallback at
ats.py line 466): split on whitespace runs, discarding empty pieces.  The
accumulator holds the current token reversed. -/
def tokenizeAux (cur : List Char) : List Char → List String
  | [] => if cur.isEmpty then [] else [⟨cur.reverse⟩]
  | c :: rest =>
    if isPySpace c then
      if cur.isEmpty then tokenizeAux [] rest
      else (⟨cur.reverse⟩ : String) :: tokenizeAux [] rest
    else tokenizeAux (c :: cur) rest

/-- Tokenization of normalized text into word-like units (ats.py line 466). -/
def tokenize (s : String) : List String :=
  tokenizeAux [] s.data

/-- The NLTK English stopword list loaded at `ResumeParser.__init__`
(ats.py line 388). -/
def nltkStopwords : List String :=
  ["i", "me", "my", "myself", "we", "our", "ours", "ourselves", "you",
   "you\x27re", "you\x27ve", "you\x27ll", "you\x27d", "your", "yours",
   "yourself", "yourselves", "he", "him", "his", "himself", "she",
   "she\x27s", "her", "hers", "herself", "it", "it\x27s", "its", "itself",
   "they", "them", "their", "theirs", "themselves", "what", "which", "who",
   "whom", "this", "that", "that\x27ll", "these", "those", "am", "is",
   "are", "was", "were", "be", "been", "being", "have", "has", "had",
   "having", "do", "does", "did", "doing", "a", "an", "the", "and", "but",
   "if", "or", "because", "as", "until", "while", "of", "at", "by", "for",
   "with", "about", "against", "between", "into", "through", "during",
   "before", "after", "above", "below", "to", "from", "up", "down", "in",
   "out", "on", "off", "over", "under", "again", "further", "then", "once",
   "here", "there", "when", "where", "why", "how", "all", "any", "both",
   "each", "few", "more", "most", "other", "some", "such", "no", "nor",
   "not", "only", "own", "same", "so", "than", "too", "very", "s", "t",
   "can", "will", "just", "don", "don\x27t", "should", "should\x27ve",
   "now", "d", "ll", "m", "o", "re", "ve", "y", "ain", "aren",
   "aren\x27t", "couldn", "couldn\x27t", "didn", "didn\x27t", "doesn",
   "doesn\x27t", "hadn", "hadn\x27t", "hasn", "hasn\x27t", "haven",
   "haven\x27t", "isn", "isn\x27t", "ma", "mightn", "mightn\x27t",
   "mustn", "mustn\x27t", "needn", "needn\x27t", "shan", "shan\x27t",
   "shouldn", "shouldn\x27t", "wasn", "wasn\x27t", "weren", "weren\x27t",
   "won", "won\x27t", "wouldn", "wouldn\x27t"]

/-- Python `str.isalpha()` on the ASCII fragment: nonempty and all letters. -/
def pyIsAlpha (s : String) : Bool :=
  !s.data.isEmpty && s.data.all Char.isAlpha

/-- The token filter of `extract_keywords` (ats.py lines 469-472): keep a
token when it is not a stopword, longer than 2 characters and alphabetic. -/
def keywordTokens (stop : List String) (t : String) : List String :=
  (tokenize (clean_text (pyLower t))).filter
    (fun w => !stop.contains w && decide (w.length > 2) && pyIsAlpha w)

/-- One update of the frequency dictionary
`word_freq[word] = word_freq.get(word, 0) + 1` (ats.py line 477); Python
dicts keep insertion order, so the table is an association list with new
words appended at the end. -/
def bumpWord (acc : List (String × Nat)) (w : String) : List (String × Nat) :=
  if acc.any (fun p => p.1 == w) then
    acc.map (fun p => if p.1 == w then (p.1, p.2 + 1) else p)
  else acc ++ [(w, 1)]

/-- The frequency table `word_freq` of `extract_keywords`
(ats.py lines 475-477), in first-occurrence order. -/
def countFreqs (ws : List String) : List (String × Nat) :=
  ws.foldl bumpWord []

/-- The comparison used by `sorted(word_freq.items(), key=lambda x: x[1],
reverse=True)` (ats.py line 480): descending frequency.  Python's `sorted`
is stable, which coincides with `List.insertionSort` under this relation. -/
def freqGe (a b : String × Nat) : Prop :=
  b.2 ≤ a.2

instance : DecidableRel freqGe := fun a b => Nat.decLe b.2 a.2

instance : IsTotal (String × Nat) freqGe :=
  ⟨fun a b => le_total b.2 a.2⟩

instance : IsTrans (String × Nat) freqGe :=
  ⟨fun _ _ _ h1 h2 => le_trans h2 h1⟩

/-- `ResumeParser.extract_keywords` (ats.py lines 457-481), parameterized by
the stopword set held in `self.stop_words`.  Note line 481 returns only the
words: `[word for word, freq in sorted_words[:top_n]]`. -/
def extract_keywords (stop : List String) (text : String) (top_n : Nat) :
    List String :=
  if text == "" then []
  else
    (((countFreqs (keywordTokens stop text)).insertionSort freqGe).take
      top_n).map Prod.fst

/-- Skill normalization `skill.lower().strip()` (ats.py lines 512-514). -/
def normSkill (s : String) : String :=
  pyStrip (pyLower s)

/-- Substring test on character lists: `a` occurs contiguously in `b`. -/
def isSubList (a : List Char) : List Char → Bool
  | [] => a.isEmpty
  | c :: rest => a.isPrefixOf (c :: rest) || isSubList a rest

/-- Python's substring test `a in b` on strings. -/
def containsSub (a b : String) : Bool :=
  isSubList a.data b.data

/-- The bidirectional containment test of ats.py line 522:
`req_skill in res_skill or res_skill in req_skill`. -/
def skillPairMatch (req res : String) : Bool :=
  containsSub req res || containsSub res req

/-- Whether some resume skill containment-matches the given skill (the inner
loop at ats.py lines 521-524). -/
def matchesAnyResume (resumeN : List String) (skill : String) : Bool :=
  resumeN.any (fun res => skillPairMatch skill res)

/-- The matched-skill list built by the loops at ats.py lines 520-530: the
normalized skills of the job list that containment-match some resume skill,
in job-list order. -/
def matchedSkills (resumeN skillsN : List String) : List String :=
  skillsN.filter (matchesAnyResume resumeN)

/-- `required_score` (ats.py line 533), as an exact rational. -/
def requiredScoreQ (resumeN requiredN : List String) : ℚ :=
  if requiredN = [] then 1
  else ((matchedSkills resumeN requiredN).length : ℚ) / (requiredN.length : ℚ)

/-- `preferred_score` (ats.py line 534), as an exact rational. -/
def preferredScoreQ (resumeN preferredN : List String) : ℚ :=
  if preferredN = [] then 0
  else ((matchedSkills resumeN preferredN).length : ℚ) / (preferredN.length : ℚ)

/-- The dictionary returned by `ATSMatcher.calculate_skills_match`.  The two
rate fields are `Option` because the short-circuit return at ats.py
lines 508-509 builds a dictionary without the `required_match_rate` and
`preferred_match_rate` keys; `none` models an absent key. -/
structure SkillsMatchResult where
  score : ℚ
  matched_required : List String
  matched_preferred : List String
  missing_required : List String
  required_match_rate : Option ℚ
  preferred_match_rate : Option ℚ
deriving DecidableEq, Repr

/-- `ATSMatcher.calculate_skills_match` (ats.py lines 505-548).  The Python
`preferred_skills=None` default is `preferred_skills or []`, so the caller's
omitted argument is the empty list here.  The float weights 0.8 and 0.2 are
the exact rationals 8/10 and 2/10. -/
def calculate_skills_match (resume_skills required_skills preferred_skills :
    List String) : SkillsMatchResult :=
  if resume_skills = [] then
    { score := 0
      matched_required := []
      matched_preferred := []
      missing_required := required_skills
      required_match_rate := none
      preferred_match_rate := none }
  else
    let resumeN := resume_skills.map normSkill
    let requiredN := required_skills.map normSkill
    let preferredN := preferred_skills.map normSkill
    let matchedReq := matchedSkills resumeN requiredN
    let rScore := requiredScoreQ resumeN requiredN
    let pScore := preferredScoreQ resumeN preferredN
    { score := (rScore * (8 / 10) + pScore * (2 / 10)) * 100
      matched_required := matchedReq
      matched_preferred := matchedSkills resumeN preferredN
      missing_required := requiredN.filter (fun s => !matchedReq.contains s)
      required_match_rate := some (rScore * 100)
      preferred_match_rate := some (pScore * 100) }

/-- `ATSMatcher.calculate_text_similarity` (ats.py lines 489-503).  The
sklearn TF-IDF vectorization and cosine computation are an external oracle:
`vectorize t1 t2` is either the cosine value the library produces or the
exception it raises (for example an empty-vocabulary error); the Python
`try/except` maps the latter to 0.0. -/
def calculate_text_similarity (text1 text2 : String)
    (vectorize : String → String → Except String ℚ) : ℚ :=
  if pyStrip text1 == "" || pyStrip text2 == "" then 0
  else
    match vectorize text1 text2 with
    | .error _ => 0
    | .ok v => v

/-- Concatenation of the page texts of the pdfplumber (primary) pass
(ats.py lines 395-399): truthy page texts are appended with a newline. -/
def plumberText (pages : List (Option String)) : String :=
  pages.foldl
    (fun acc p? =>
      match p? with
      | some s => if s == "" then acc else acc ++ s ++ "\n"
      | none => acc)
    ""

/-- Concatenation of the page texts of the PyPDF2 (fallback) pass
(ats.py lines 410-414): every page text is appended with a newline. -/
def pypdfText (pages : List String) : String :=
  pages.foldl (fun acc s => acc ++ s ++ "\n") ""

/-- `ResumeParser.extract_text_from_pdf` (ats.py lines 390-417).  The two PDF
backends are oracles: `primary` is the per-page output of pdfplumber (or the
exception the pass raises), `fallback` the per-page output of PyPDF2
(likewise).  The primary result is kept only when its stripped text is
nonempty; a raising fallback yields the empty string. -/
def extract_text_from_pdf (primary : Except Unit (List (Option String)))
    (fallback : Except Unit (List String)) : String :=
  let fb : String :=
    match fallback with
    | .ok ps => pypdfText ps
    | .error _ => ""
  match primary with
  | .ok pages =>
    let t := plumberText pages
    if pyStrip t == "" then fb else t
  | .error _ => fb

/-- The payload assembled by a successful run of the processing pipeline
(ats.py lines 589-596); the Gemini-produced structures are opaque external
values, modelled as strings, and `improvement_plan` is `None` when the score
is at least 90. -/
structure SuccessPayload where
  resume_data : String
  job_data : String
  ats_analysis : String
  improvement_plan : Option String
deriving DecidableEq, Repr

/-- The environment of one pipeline run: the two PDF-backend oracles, the
combined outcome of steps 2-5 (the Gemini calls and result assembly, which
either produce a payload or raise an exception with a message), and the
`datetime.now().isoformat()` timestamp. -/
structure PipeEnv where
  plumberPages : Except Unit (List (Option String))
  pypdfPages : Except Unit (List String)
  steps : String → Except String SuccessPayload
  now : String

/-- The result record of `ATSAnalyzer.process_resume_and_job`;
`error_message` is `none` exactly when the key is absent from the returned
dictionary, and `payload` holds the success-only keys. -/
structure PipelineRecord where
  status : String
  error_message : Option String
  processed_at : String
  payload : Option SuccessPayload
deriving DecidableEq, Repr

/-- The resume text obtained by step 1 of the pipeline (ats.py line 563). -/
def pipelineResumeText (env : PipeEnv) : String :=
  extract_text_from_pdf env.plumberPages env.pypdfPages

/-- `ATSAnalyzer.process_resume_and_job` (ats.py lines 558-606): the whole
pipeline body runs inside one `try`; an empty extracted text raises
`ValueError("Could not extract text from PDF")`, and every exception reaching
the boundary is converted to the `status: error` record carrying the
exception's message. -/
def process_resume_and_job (env : PipeEnv) : PipelineRecord :=
  let resume_text := pipelineResumeText env
  if pyStrip resume_text == "" then
    { status := "error"
      error_message := some "Could not extract text from PDF"
      processed_at := env.now
      payload := none }
  else
    match env.steps resume_text with
    | .error msg =>
      { status := "error"
        error_message := some msg
        processed_at := env.now
        payload := none }
    | .ok p =>
      { status := "success"
        error_message := none
        processed_at := env.now
        payload := some p }

/-- The separator class `[-.\s]` of the phone pattern (ats.py line 438). -/
def isSepChar (c : Char) : Bool :=
  c == '-' || c == '.' || isPySpace c

/-- Consume exactly `n` digits, returning the rest of the input. -/
def takeDigits : Nat → List Char → Option (List Char)
  | 0, l => some l
  | n + 1, c :: l => if c.isDigit then takeDigits n l else none
  | _ + 1, [] => none

/-- Greedy optional single character: the backtracking alternatives of `c?`
at the current input, highest priority (character consumed) first. -/
def optChar (c : Char) (l : List Char) : List (List Char) :=
  match l with
  | d :: rest => if d == c then [rest, l] else [l]
  | [] => [l]

/-- Greedy optional character class: the backtracking alternatives of
`[class]?`, highest priority (character consumed) first. -/
def optPred (p : Char → Bool) (l : List Char) : List (List Char) :=
  match l with
  | d :: rest => if p d then [rest, l] else [l]
  | [] => [l]

/-- Greedy bounded repeat `\d{1,3}`: alternatives with three, two and one
digit consumed, in that backtracking priority order. -/
def digits13 (l : List Char) : List (List Char) :=
  (match takeDigits 3 l with | some r => [r] | none => []) ++
  (match takeDigits 2 l with | some r => [r] | none => []) ++
  (match takeDigits 1 l with | some r => [r] | none => [])

/-- Backtracking alternatives of the capture group
`(\+?\d{1,3}[-.\s]?)?` of the phone pattern, in regex priority order: each
alternative is the captured text paired with the rest of the input; the group
left unmatched (capture `""`, as `re.findall` reports an unset group) comes
last. -/
def phoneGroupAlts (l : List Char) : List (String × List Char) :=
  ((optChar '+' l).flatMap fun r1 =>
    (digits13 r1).flatMap fun r2 =>
      (optPred isSepChar r2).map fun r3 =>
        ((⟨l.take (l.length - r3.length)⟩ : String), r3)) ++ [("", l)]

/-- Backtracking alternatives of the rest of the phone pattern
`\(?\d{3}\)?[-.\s]?\d{3}[-.\s]?\d{4}`: the possible rests of the input
after a complete match, in priority order. -/
def phoneTailAlts (l : List Char) : List (List Char) :=
  (optChar '(' l).flatMap fun a =>
    (match takeDigits 3 a with | some b => [b] | none => []).flatMap fun b =>
      (optChar ')' b).flatMap fun c =>
        (optPred isSepChar c).flatMap fun d =>
          (match takeDigits 3 d with | some e => [e] | none => []).flatMap
            fun e =>
              (optPred isSepChar e).flatMap fun f =>
                match takeDigits 4 f with | some g => [g] | none => []

/-- Attempt of the whole phone pattern anchored at the current position:
the first (highest-priority) complete match, as the pair of the captured
group and the length of the full match — exactly what the Python regex
engine reports at this position. -/
def matchPhoneAt (l : List Char) : Option (String × Nat) :=
  ((phoneGroupAlts l).flatMap fun gr =>
    (phoneTailAlts gr.2).map fun rest => (gr.1, l.length - rest.length)).head?

/-- Left-to-right scan of `re.findall` restricted to the first match: the
captured group together with the full matched substring. -/
def findPhoneAux : List Char → Option (String × String)
  | [] => none
  | c :: rest =>
    match matchPhoneAt (c :: rest) with
    | some (g, len) => some (g, ⟨(c :: rest).take len⟩)
    | none => findPhoneAux rest

/-- The `phone` field assigned by `extract_contact_info`
(ats.py lines 437-441): `re.findall` with a pattern containing one capture
group returns the list of group captures, so `phones[0]` is the captured
country-code part of the first match (and the `''.join` tuple branch is dead
for a single group); with no match the field stays `""`. -/
def phoneField (text : String) : String :=
  match findPhoneAux text.data with
  | some (g, _) => g
  | none => ""

/-- The first substring of the text fully matching the phone layout — the
value the spec says the `phone` field holds. -/
def firstPhoneFullMatch (text : String) : Option String :=
  (findPhoneAux text.data).map Prod.snd

/-- Head shape predicate: the first character, if any, is not whitespace. -/
def headOkB : List Char → Bool
  | [] => true
  | c :: _ => !isPySpace c

/-- Last shape predicate: the final character, if any, is not whitespace. -/
def lastOkB : List Char → Bool
  | [] => true
  | [c] => !isPySpace c
  | _ :: c :: rest => lastOkB (c :: rest)

/-- Every whitespace character in the list is a plain space. -/
def allWsSpace (l : List Char) : Bool :=
  l.all (fun c => !isPySpace c || c == ' ')

/-- No two adjacent whitespace characters. -/
def noAdjWs : List Char → Bool
  | c :: d :: rest => (!(isPySpace c && isPySpace d)) && noAdjWs (d :: rest)
  | _ => true

/-! ### Helper lemmas -/

/-- Unfolding of `calculate_skills_match` on a nonempty resume skill list. -/
lemma calculate_skills_match_of_ne_nil {rs : List String} (h : rs ≠ [])
    (req pref : List String) :
    calculate_skills_match rs req pref =
      { score := (requiredScoreQ (rs.map normSkill) (req.map normSkill) * (8 / 10) +
            preferredScoreQ (rs.map normSkill) (pref.map normSkill) * (2 / 10)) * 100
        matched_required := matchedSkills (rs.map normSkill) (req.map normSkill)
        matched_preferred := matchedSkills (rs.map normSkill) (pref.map normSkill)
        missing_required := (req.map normSkill).filter
          (fun s => !(matchedSkills (rs.map normSkill) (req.map normSkill)).contains s)
        required_match_rate :=
          some (requiredScoreQ (rs.map normSkill) (req.map normSkill) * 100)
        preferred_match_rate :=
          some (preferredScoreQ (rs.map normSkill) (pref.map normSkill) * 100) } := by
  simp only [calculate_skills_match, if_neg h]

/-- The empty string is a substring of every string. -/
lemma isSubList_nil (l : List Char) : isSubList [] l = true := by
  cases l <;> simp [isSubList, List.isPrefixOf, List.isEmpty]

/-- Filtering to one exact frequency commutes with ordered insertion under
the descending-frequency relation: the inserted pair lands before exactly the
pairs of strictly smaller frequency. -/
lemma filter_freq_orderedInsert (f : Nat) (a : String × Nat)
    (s : List (String × Nat)) :
    (List.orderedInsert freqGe a s).filter (fun p => p.2 == f) =
      if a.2 == f then a :: s.filter (fun p => p.2 == f)
      else s.filter (fun p => p.2 == f) := by
  induction s with
  | nil =>
    rw [List.orderedInsert_nil, List.filter_cons, List.filter_nil]
  | cons b s ih =>
    by_cases hr : freqGe a b
    · rw [List.orderedInsert_of_le freqGe _ hr, List.filter_cons]
    · have h1 : List.orderedInsert freqGe a (b :: s) =
          b :: List.orderedInsert freqGe a s := by
        simp [List.orderedInsert, hr]
      rw [h1, List.filter_cons, ih]
      by_cases ha : (a.2 == f) = true
      · have haf : a.2 = f := beq_iff_eq.mp ha
        have hlt : a.2 < b.2 := Nat.lt_of_not_le hr
        have hb : (b.2 == f) = false := beq_eq_false_iff_ne.mpr (by omega)
        simp [ha, hb, List.filter_cons]
      · simp [ha, List.filter_cons]

/-- The insertion sort by descending frequency is stable: restricted to any
one frequency it preserves the original (first-occurrence) order. -/
lemma filter_freq_insertionSort (f : Nat) (l : List (String × Nat)) :
    (l.insertionSort freqGe).filter (fun p => p.2 == f) =
      l.filter (fun p => p.2 == f) := by
  induction l with
  | nil => rfl
  | cons a l ih =>
    simp only [List.insertionSort]
    rw [filter_freq_orderedInsert, List.filter_cons, ih]

/-- A pointwise-weaker predicate keeps no more list elements. -/
lemma filter_length_mono {α : Type} (l : List α) (p q : α → Bool)
    (hpq : ∀ a, p a = true → q a = true) :
    (l.filter p).length ≤ (l.filter q).length := by
  induction l with
  | nil => exact le_refl _
  | cons a l ih =>
    rw [List.filter_cons, List.filter_cons]
    by_cases hp : p a = true
    · rw [if_pos hp, if_pos (hpq a hp)]
      simpa using ih
    · rw [if_neg hp]
      by_cases hq : q a = true
      · rw [if_pos hq]
        exact le_trans ih (by simp)
      · rw [if_neg hq]
        exact ih

/-- Strict version: if additionally some member passes `q` but not `p`, the
`q`-filtered list is strictly longer. -/
lemma filter_length_lt {α : Type} {l : List α} (p q : α → Bool)
    (hpq : ∀ a, p a = true → q a = true) {r : α} (hrl : r ∈ l)
    (hpr : p r = false) (hqr : q r = true) :
    (l.filter p).length < (l.filter q).length := by
  induction hrl with
  | head t =>
    rw [List.filter_cons, List.filter_cons, if_neg (by simp [hpr]), if_pos hqr]
    exact Nat.lt_succ_of_le (filter_length_mono t p q hpq)
  | tail b hmem ih =>
    rw [List.filter_cons, List.filter_cons]
    by_cases hp : p b = true
    · rw [if_pos hp, if_pos (hpq b hp)]
      simpa using ih
    · rw [if_neg hp]
      by_cases hq : q b = true
      · rw [if_pos hq]
        exact lt_of_lt_of_le ih (by simp)
      · rw [if_neg hq]
        exact ih

/-- The required-skills rate is nonnegative. -/
lemma requiredScoreQ_nonneg (resumeN skillsN : List String) :
    0 ≤ requiredScoreQ resumeN skillsN := by
  unfold requiredScoreQ
  split
  · norm_num
  · positivity

/-- The preferred-skills rate is nonnegative. -/
lemma preferredScoreQ_nonneg (resumeN skillsN : List String) :
    0 ≤ preferredScoreQ resumeN skillsN := by
  unfold preferredScoreQ
  split
  · norm_num
  · positivity

/-- Appending a resume skill preserves every existing containment match. -/
lemma matchesAnyResume_append (resumeN : List String) (x : String)
    (a : String) (h : matchesAnyResume resumeN a = true) :
    matchesAnyResume (resumeN ++ [x]) a = true := by
  unfold matchesAnyResume at h ⊢
  rw [List.any_append, h]
  rfl

/-- Appending a resume skill cannot lower the required-skills rate. -/
lemma requiredScoreQ_mono (resumeN : List String) (x : String)
    (skillsN : List String) :
    requiredScoreQ resumeN skillsN ≤ requiredScoreQ (resumeN ++ [x]) skillsN := by
  unfold requiredScoreQ
  split
  · exact le_refl _
  case isFalse h =>
    have hlen : (0 : ℚ) < (skillsN.length : ℚ) :=
      Nat.cast_pos.mpr (List.length_pos.mpr h)
    have hnum : ((matchedSkills resumeN skillsN).length : ℚ) ≤
        ((matchedSkills (resumeN ++ [x]) skillsN).length : ℚ) :=
      Nat.cast_le.mpr (filter_length_mono skillsN _ _
        (matchesAnyResume_append resumeN x))
    exact (div_le_div_iff_of_pos_right hlen).mpr hnum

/-- Appending a resume skill cannot lower the preferred-skills rate. -/
lemma preferredScoreQ_mono (resumeN : List String) (x : String)
    (skillsN : List String) :
    preferredScoreQ resumeN skillsN ≤ preferredScoreQ (resumeN ++ [x]) skillsN := by
  unfold preferredScoreQ
  split
  · exact le_refl _
  case isFalse h =>
    have hlen : (0 : ℚ) < (skillsN.length : ℚ) :=
      Nat.cast_pos.mpr (List.length_pos.mpr h)
    have hnum : ((matchedSkills resumeN skillsN).length : ℚ) ≤
        ((matchedSkills (resumeN ++ [x]) skillsN).length : ℚ) :=
      Nat.cast_le.mpr (filter_length_mono skillsN _ _
        (matchesAnyResume_append resumeN x))
    exact (div_le_div_iff_of_pos_right hlen).mpr hnum

lemma headOkB_dropWhile (l : List Char) :
    headOkB (l.dropWhile isPySpace) = true := by
  induction l with
  | nil => rfl
  | cons c rest ih =>
    rw [List.dropWhile_cons]
    by_cases hc : isPySpace c = true
    · rw [if_pos (by simp [hc])]
      exact ih
    · have hc' : isPySpace c = false := by simpa using hc
      rw [if_neg (by simp [hc'])]
      simp [headOkB, hc']

lemma dropWhile_decomp {α : Type} (p : α → Bool) (l : List α) :
    ∃ t, l = t ++ l.dropWhile p := by
  induction l with
  | nil => exact ⟨[], rfl⟩
  | cons a l ih =>
    rw [List.dropWhile_cons]
    by_cases ha : p a = true
    · obtain ⟨t, ht⟩ := ih
      rw [if_pos ha]
      exact ⟨a :: t, by rw [List.cons_append, ← ht]⟩
    · rw [if_neg ha]
      exact ⟨[], rfl⟩

lemma mem_dropWhile {α : Type} {p : α → Bool} {a : α} {l : List α}
    (h : a ∈ l.dropWhile p) : a ∈ l := by
  obtain ⟨t, ht⟩ := dropWhile_decomp p l
  rw [ht]
  exact List.mem_append_right t h

lemma mem_stripList {a : Char} {l : List Char} (h : a ∈ stripList l) :
    a ∈ l := by
  unfold stripList at h
  rw [List.mem_reverse] at h
  have h2 := mem_dropWhile h
  rw [List.mem_reverse] at h2
  exact mem_dropWhile h2

lemma mem_collapseWs {a : Char} : ∀ {l : List Char} {b : Bool},
    a ∈ collapseWs b l → a = ' ' ∨ a ∈ l := by
  intro l
  induction l with
  | nil => intro b h; cases b <;> cases h
  | cons c rest ih =>
    intro b h
    by_cases hc : isPySpace c = true
    · cases b with
      | true =>
        rw [show collapseWs true (c :: rest) = collapseWs true rest by
          simp [collapseWs, hc]] at h
        rcases ih h with h' | h'
        · exact Or.inl h'
        · exact Or.inr (List.mem_cons_of_mem c h')
      | false =>
        rw [show collapseWs false (c :: rest) = ' ' :: collapseWs true rest by
          simp [collapseWs, hc]] at h
        rcases List.mem_cons.mp h with h' | h'
        · exact Or.inl h'
        · rcases ih h' with h'' | h''
          · exact Or.inl h''
          · exact Or.inr (List.mem_cons_of_mem c h'')
    · have hcol : collapseWs b (c :: rest) = c :: collapseWs false rest := by
        cases b <;> simp [collapseWs, hc]
      rw [hcol] at h
      rcases List.mem_cons.mp h with h' | h'
      · exact Or.inr (h' ▸ List.mem_cons_self c rest)
      · rcases ih h' with h'' | h''
        · exact Or.inl h''
        · exact Or.inr (List.mem_cons_of_mem c h'')

lemma headOkB_collapseWs_true (l : List Char) :
    headOkB (collapseWs true l) = true := by
  induction l with
  | nil => rfl
  | cons c rest ih =>
    by_cases hc : isPySpace c = true
    · rw [show collapseWs true (c :: rest) = collapseWs true rest by
        simp [collapseWs, hc]]
      exact ih
    · have hc' : isPySpace c = false := by simpa using hc
      rw [show collapseWs true (c :: rest) = c :: collapseWs false rest by
        simp [collapseWs, hc']]
      simp [headOkB, hc']

lemma headOkB_collapseWs_false {l : List Char} (h : headOkB l = true) :
    headOkB (collapseWs false l) = true := by
  cases l with
  | nil => rfl
  | cons c rest =>
    simp only [headOkB, Bool.not_eq_true'] at h
    rw [show collapseWs false (c :: rest) = c :: collapseWs false rest by
      simp [collapseWs, h]]
    simp [headOkB, h]

lemma allWsSpace_cons {c : Char} {X : List Char} :
    allWsSpace (c :: X) = ((!isPySpace c || c == ' ') && allWsSpace X) := by
  simp [allWsSpace]

lemma allWsSpace_collapseWs : ∀ (l : List Char) (b : Bool),
    allWsSpace (collapseWs b l) = true := by
  intro l
  induction l with
  | nil => intro b; cases b <;> rfl
  | cons c rest ih =>
    intro b
    by_cases hc : isPySpace c = true
    · cases b with
      | true =>
        rw [show collapseWs true (c :: rest) = collapseWs true rest by
          simp [collapseWs, hc]]
        exact ih true
      | false =>
        rw [show collapseWs false (c :: rest) = ' ' :: collapseWs true rest by
          simp [collapseWs, hc]]
        rw [allWsSpace_cons, ih true]
        decide
    · have hc' : isPySpace c = false := by simpa using hc
      rw [show collapseWs b (c :: rest) = c :: collapseWs false rest by
        cases b <;> simp [collapseWs, hc']]
      rw [allWsSpace_cons, ih false]
      simp [hc']

lemma noAdjWs_tail {c : Char} {X : List Char} (h : noAdjWs (c :: X) = true) :
    noAdjWs X = true := by
  cases X with
  | nil => rfl
  | cons d rest =>
    simp only [noAdjWs, Bool.and_eq_true] at h
    exact h.2

lemma noAdjWs_cons_of (c : Char) {X : List Char} (hX : noAdjWs X = true)
    (h : isPySpace c = false ∨ headOkB X = true) :
    noAdjWs (c :: X) = true := by
  cases X with
  | nil => rfl
  | cons d rest =>
    have hd : (isPySpace c && isPySpace d) = false := by
      rcases h with h | h
      · simp [h]
      · simp only [headOkB, Bool.not_eq_true'] at h
        simp [h]
    simp [noAdjWs, hd, hX]

lemma noAdjWs_collapseWs : ∀ (l : List Char) (b : Bool),
    noAdjWs (collapseWs b l) = true := by
  intro l
  induction l with
  | nil => intro b; cases b <;> rfl
  | cons c rest ih =>
    intro b
    by_cases hc : isPySpace c = true
    · cases b with
      | true =>
        rw [show collapseWs true (c :: rest) = collapseWs true rest by
          simp [collapseWs, hc]]
        exact ih true
      | false =>
        rw [show collapseWs false (c :: rest) = ' ' :: collapseWs true rest by
          simp [collapseWs, hc]]
        exact noAdjWs_cons_of ' ' (ih true)
          (Or.inr (headOkB_collapseWs_true rest))
    · have hc' : isPySpace c = false := by simpa using hc
      rw [show collapseWs b (c :: rest) = c :: collapseWs false rest by
        cases b <;> simp [collapseWs, hc']]
      exact noAdjWs_cons_of c (ih false) (Or.inl hc')

lemma allWsSpace_tail {c : Char} {X : List Char}
    (h : allWsSpace (c :: X) = true) : allWsSpace X = true := by
  rw [allWsSpace_cons, Bool.and_eq_true] at h
  exact h.2

lemma collapseWs_fix : ∀ (l : List Char), allWsSpace l = true →
    noAdjWs l = true → collapseWs false l = l := by
  intro l
  induction l with
  | nil => intro _ _; rfl
  | cons c rest ih =>
    intro hall hadj
    by_cases hc : isPySpace c = true
    · have hcsp : c = ' ' := by
        rw [allWsSpace_cons, Bool.and_eq_true] at hall
        have h1 := hall.1
        rw [hc] at h1
        simpa using h1
      rw [show collapseWs false (c :: rest) = ' ' :: collapseWs true rest by
        simp [collapseWs, hc]]
      cases rest with
      | nil => rw [hcsp]; rfl
      | cons d rest' =>
        have hd : isPySpace d = false := by
          simp only [noAdjWs, Bool.and_eq_true] at hadj
          have h1 := hadj.1
          rw [hc] at h1
          simpa using h1
        have hrest := ih (allWsSpace_tail hall) (noAdjWs_tail hadj)
        rw [show collapseWs false (d :: rest') = d :: collapseWs false rest' by
          simp [collapseWs, hd]] at hrest
        have h5 : collapseWs false rest' = rest' := by
          injection hrest
        rw [show collapseWs true (d :: rest') = d :: collapseWs false rest' by
          simp [collapseWs, hd]]
        rw [h5, hcsp]
    · have hc' : isPySpace c = false := by simpa using hc
      rw [show collapseWs false (c :: rest) = c :: collapseWs false rest by
        simp [collapseWs, hc']]
      rw [ih (allWsSpace_tail hall) (noAdjWs_tail hadj)]

lemma collapseWs_ne_nil {l : List Char} {c : Char} (hc : c ∈ l)
    (hws : isPySpace c = false) : ∀ b, collapseWs b l ≠ [] := by
  induction l with
  | nil => cases hc
  | cons a rest ih =>
    intro b
    rcases List.mem_cons.mp hc with rfl | hmem
    · rw [show collapseWs b (c :: rest) = c :: collapseWs false rest by
        cases b <;> simp [collapseWs, hws]]
      exact List.cons_ne_nil _ _
    · by_cases ha : isPySpace a = true
      · cases b with
        | true =>
          rw [show collapseWs true (a :: rest) = collapseWs true rest by
            simp [collapseWs, ha]]
          exact ih hmem true
        | false =>
          rw [show collapseWs false (a :: rest) = ' ' :: collapseWs true rest by
            simp [collapseWs, ha]]
          exact List.cons_ne_nil _ _
      · have ha' : isPySpace a = false := by simpa using ha
        rw [show collapseWs b (a :: rest) = a :: collapseWs false rest by
          cases b <;> simp [collapseWs, ha']]
        exact List.cons_ne_nil _ _

lemma lastOkB_cons_ne {a : Char} {X : List Char} (h : X ≠ []) :
    lastOkB (a :: X) = lastOkB X := by
  cases X with
  | nil => exact absurd rfl h
  | cons d rest => rfl

lemma lastOkB_mem {l : List Char} (h : lastOkB l = true) (hne : l ≠ []) :
    ∃ c ∈ l, isPySpace c = false := by
  induction l with
  | nil => exact absurd rfl hne
  | cons a rest ih =>
    cases rest with
    | nil =>
      refine ⟨a, List.mem_cons_self a [], ?_⟩
      simpa [lastOkB] using h
    | cons d r =>
      rw [lastOkB_cons_ne (List.cons_ne_nil d r)] at h
      obtain ⟨c, hc, hcw⟩ := ih h (List.cons_ne_nil d r)
      exact ⟨c, List.mem_cons_of_mem a hc, hcw⟩

lemma lastOkB_collapseWs : ∀ {l : List Char}, lastOkB l = true →
    ∀ b, lastOkB (collapseWs b l) = true := by
  intro l
  induction l with
  | nil => intro _ b; cases b <;> rfl
  | cons a rest ih =>
    intro h b
    cases rest with
    | nil =>
      have ha : isPySpace a = false := by simpa [lastOkB] using h
      rw [show collapseWs b [a] = a :: collapseWs false [] by
        cases b <;> simp [collapseWs, ha]]
      simpa [collapseWs, lastOkB] using ha
    | cons d r =>
      have hrest : lastOkB (d :: r) = true := by
        rwa [lastOkB_cons_ne (List.cons_ne_nil d r)] at h
      obtain ⟨c, hc, hcw⟩ := lastOkB_mem hrest (List.cons_ne_nil d r)
      by_cases ha : isPySpace a = true
      · cases b with
        | true =>
          rw [show collapseWs true (a :: d :: r) = collapseWs true (d :: r) by
            simp [collapseWs, ha]]
          exact ih hrest true
        | false =>
          rw [show collapseWs false (a :: d :: r) =
              ' ' :: collapseWs true (d :: r) by simp [collapseWs, ha]]
          rw [lastOkB_cons_ne (collapseWs_ne_nil hc hcw true)]
          exact ih hrest true
      · have ha' : isPySpace a = false := by simpa using ha
        rw [show collapseWs b (a :: d :: r) = a :: collapseWs false (d :: r) by
          cases b <;> simp [collapseWs, ha']]
        rw [lastOkB_cons_ne (collapseWs_ne_nil hc hcw false)]
        exact ih hrest false

lemma headOkB_append_left {X : List Char} (Y : List Char) (h : X ≠ []) :
    headOkB (X ++ Y) = headOkB X := by
  cases X with
  | nil => exact absurd rfl h
  | cons c rest => rfl

lemma lastOkB_eq_headOkB_reverse (l : List Char) :
    lastOkB l = headOkB l.reverse := by
  induction l with
  | nil => rfl
  | cons a rest ih =>
    cases rest with
    | nil => rfl
    | cons d r =>
      rw [lastOkB_cons_ne (List.cons_ne_nil d r), ih]
      have h1 : (a :: d :: r).reverse = (d :: r).reverse ++ [a] := by
        simp
      rw [h1, headOkB_append_left [a] (by simp)]

lemma dropWhile_eq_self_of_headOk {l : List Char} (h : headOkB l = true) :
    l.dropWhile isPySpace = l := by
  cases l with
  | nil => rfl
  | cons c rest =>
    simp only [headOkB, Bool.not_eq_true'] at h
    rw [List.dropWhile_cons, if_neg (by simp [h])]

lemma stripList_eq_self {l : List Char} (h1 : headOkB l = true)
    (h2 : lastOkB l = true) : stripList l = l := by
  unfold stripList
  rw [dropWhile_eq_self_of_headOk h1,
    dropWhile_eq_self_of_headOk (by rwa [← lastOkB_eq_headOkB_reverse]),
    List.reverse_reverse]

lemma lastOkB_stripList (l : List Char) : lastOkB (stripList l) = true := by
  rw [lastOkB_eq_headOkB_reverse]
  unfold stripList
  rw [List.reverse_reverse]
  exact headOkB_dropWhile _

lemma headOkB_stripList (l : List Char) : headOkB (stripList l) = true := by
  obtain ⟨t, ht⟩ := dropWhile_decomp isPySpace (l.dropWhile isPySpace).reverse
  have hA : l.dropWhile isPySpace = stripList l ++ t.reverse := by
    conv_lhs => rw [← List.reverse_reverse (l.dropWhile isPySpace), ht]
    rw [List.reverse_append]
    rfl
  have hhead : headOkB (l.dropWhile isPySpace) = true := headOkB_dropWhile l
  rw [hA] at hhead
  cases h : stripList l with
  | nil => rfl
  | cons c rest =>
    rw [h, List.cons_append] at hhead
    simpa [headOkB] using hhead

lemma cleanChars_mem_allowed {a : Char} {l : List Char}
    (h : a ∈ cleanChars l) : isAllowedChar a = true :=
  (List.mem_filter.mp h).2

lemma cleanChars_of_allowed {l : List Char}
    (hall : ∀ a ∈ l, isAllowedChar a = true) :
    cleanChars l = collapseWs false (stripList l) := by
  apply List.filter_eq_self.mpr
  intro a ha
  rcases mem_collapseWs ha with rfl | hmem
  · decide
  · exact hall a (mem_stripList hmem)

/-- Applying `cleanChars` twice reaches a fixed point of `cleanChars`. -/
lemma cleanChars_double_fix (l : List Char) :
    cleanChars (cleanChars (cleanChars l)) = cleanChars (cleanChars l) := by
  have hallA : ∀ a ∈ cleanChars l, isAllowedChar a = true :=
    fun a ha => cleanChars_mem_allowed ha
  have h2 : cleanChars (cleanChars l) =
      collapseWs false (stripList (cleanChars l)) := cleanChars_of_allowed hallA
  have hallB : ∀ a ∈ collapseWs false (stripList (cleanChars l)),
      isAllowedChar a = true := by
    intro a ha
    rcases mem_collapseWs ha with rfl | hmem
    · decide
    · exact hallA a (mem_stripList hmem)
  have hstrip : stripList (collapseWs false (stripList (cleanChars l))) =
      collapseWs false (stripList (cleanChars l)) :=
    stripList_eq_self (headOkB_collapseWs_false (headOkB_stripList _))
      (lastOkB_collapseWs (lastOkB_stripList _) false)
  have hcoll : collapseWs false (collapseWs false (stripList (cleanChars l))) =
      collapseWs false (stripList (cleanChars l)) :=
    collapseWs_fix _ (allWsSpace_collapseWs _ _) (noAdjWs_collapseWs _ _)
  rw [h2]
  generalize hB : collapseWs false (stripList (cleanChars l)) = B
    at hstrip hcoll hallB ⊢
  unfold cleanChars
  rw [hstrip, hcoll]
  exact List.filter_eq_self.mpr hallB

/-! ### Claim theorems -/

/-- C4 counterexample: on the empty-resume short-circuit the returned
dictionary has no `required_match_rate` and no `preferred_match_rate` key
(ats.py lines 508-509), so not every `MatchResult` field is present. -/
theorem C4_counterexample :
    (calculate_skills_match [] ["Python"] []).required_match_rate = none ∧
    (calculate_skills_match [] ["Python"] []).preferred_match_rate = none :=
  ⟨rfl, rfl⟩

/-- C4 (amended): every result carries `score`, `matched_required`,
`matched_preferred` and `missing_required`; the two rate fields are present
exactly when `resume_skills` is nonempty — the short-circuit omits them. -/
theorem C4_rates_presence (rs req pref : List String) :
    ((calculate_skills_match rs req pref).required_match_rate.isSome ↔ rs ≠ []) ∧
    ((calculate_skills_match rs req pref).preferred_match_rate.isSome ↔ rs ≠ []) := by
  by_cases h : rs = []
  · subst h
    simp [calculate_skills_match]
  · rw [calculate_skills_match_of_ne_nil h]
    simp [h]

/-- C5 (code bug evaluation): on the text `"555-123-4567"` the phone pattern
has a full match equal to the whole text, yet the assigned `phone` field is
`""` because `re.findall` with one capture group returns the captures of the
optional country-code group, not the full matches. -/
theorem C5_phone_capture_bug :
    phoneField "555-123-4567" = "" ∧
    firstPhoneFullMatch "555-123-4567" = some "555-123-4567" :=
  ⟨by decide, by decide⟩

/-- C9: `calculate_text_similarity` is total, and whenever the TF-IDF
vectorization oracle raises, the exception is caught and 0.0 returned. -/
theorem C9_similarity_catch (text1 text2 : String)
    (vectorize : String → String → Except String ℚ) (e : String)
    (h : vectorize text1 text2 = .error e) :
    calculate_text_similarity text1 text2 vectorize = 0 := by
  unfold calculate_text_similarity
  rw [h]
  split <;> rfl

/-- C9 witness: two stopword-only texts whose vectorization raises an
empty-vocabulary error yield similarity 0. -/
theorem C9_similarity_catch_witness :
    calculate_text_similarity "the" "of"
      (fun _ _ => .error "empty vocabulary; perhaps the documents only contain stop words") = 0 :=
  C9_similarity_catch "the" "of" _
    "empty vocabulary; perhaps the documents only contain stop words" rfl

/-- C3: when the primary (pdfplumber) pass raises or yields only
empty/whitespace text and the fallback (PyPDF2) pass yields text that strips
to empty, the pipeline terminates with the extraction-failure error record —
`status: "error"` with the extraction message and no success payload —
rather than a success value. -/
theorem C3_no_text_error (env : PipeEnv)
    (hprimary : env.plumberPages = .error () ∨
      ∃ pages, env.plumberPages = .ok pages ∧ pyStrip (plumberText pages) = "")
    (hfallback : ∃ ps, env.pypdfPages = .ok ps ∧ pyStrip (pypdfText ps) = "") :
    (process_resume_and_job env).status = "error" ∧
    (process_resume_and_job env).error_message =
      some "Could not extract text from PDF" ∧
    (process_resume_and_job env).payload = none := by
  obtain ⟨ps, hps, hpse⟩ := hfallback
  have htext : pipelineResumeText env = pypdfText ps := by
    unfold pipelineResumeText extract_text_from_pdf
    rcases hprimary with h | ⟨pages, hpg, hpge⟩
    · rw [h, hps]
    · rw [hpg, hps]
      simp [hpge]
  unfold process_resume_and_job
  rw [htext]
  simp [hpse]

/-- C3 witness: a primary pass yielding one whitespace-only page and a
fallback pass yielding one empty page produce the extraction-failure error
record. -/
theorem C3_no_text_error_witness :
    (process_resume_and_job
      ⟨.ok [some "  "], .ok [""], fun _ => .ok ⟨"", "", "", none⟩, "t0"⟩).status
        = "error" ∧
    (process_resume_and_job
      ⟨.ok [some "  "], .ok [""], fun _ => .ok ⟨"", "", "", none⟩, "t0"⟩).error_message
        = some "Could not extract text from PDF" ∧
    (process_resume_and_job
      ⟨.ok [some "  "], .ok [""], fun _ => .ok ⟨"", "", "", none⟩, "t0"⟩).payload
        = none :=
  C3_no_text_error _ (.inr ⟨[some "  "], rfl, by decide⟩) ⟨[""], rfl, by decide⟩

/-- C8: the orchestrator never raises past its boundary: every run ends in
`success` or `error`, the `error_message` key is present exactly on error
results, the timestamp is always present, and an exception raised by the
inner steps becomes an error record carrying exactly the exception's
message. -/
theorem C8_error_boundary (env : PipeEnv) :
    ((process_resume_and_job env).status = "success" ∨
      (process_resume_and_job env).status = "error") ∧
    ((process_resume_and_job env).status = "error" ↔
      (process_resume_and_job env).error_message ≠ none) ∧
    (process_resume_and_job env).processed_at = env.now ∧
    (∀ msg, pyStrip (pipelineResumeText env) ≠ "" →
      env.steps (pipelineResumeText env) = .error msg →
      (process_resume_and_job env).status = "error" ∧
      (process_resume_and_job env).error_message = some msg) := by
  by_cases h : pyStrip (pipelineResumeText env) = ""
  · have hb : (pyStrip (pipelineResumeText env) == "") = true := beq_iff_eq.mpr h
    simp [process_resume_and_job, hb, h]
  · have hb : (pyStrip (pipelineResumeText env) == "") = false :=
      beq_eq_false_iff_ne.mpr h
    cases hs : env.steps (pipelineResumeText env) with
    | error msg => simp [process_resume_and_job, hb, hs]
    | ok p => simp [process_resume_and_job, hb, hs]

/-- C8 witness: a run whose inner steps raise `"boom"` on a successfully
extracted resume text ends as an error record with message `"boom"`. -/
theorem C8_error_boundary_witness :
    (process_resume_and_job
      ⟨.ok [some "resume text"], .ok [], fun _ => .error "boom", "t1"⟩).status
        = "error" ∧
    (process_resume_and_job
      ⟨.ok [some "resume text"], .ok [], fun _ => .error "boom", "t1"⟩).error_message
        = some "boom" :=
  (C8_error_boundary _).2.2.2 "boom" (by decide) rfl

/-- C10: with a nonempty resume skill list, a required skill normalizing to
the empty string is always containment-matched (the empty string is a
substring of every resume skill), hence appears in `matched_required` and
never in `missing_required`. -/
theorem C10_empty_required_matched (resume req pref : List String)
    (hres : resume ≠ []) (r : String) (hr : r ∈ req) (hnorm : normSkill r = "") :
    "" ∈ (calculate_skills_match resume req pref).matched_required ∧
    "" ∉ (calculate_skills_match resume req pref).missing_required := by
  rw [calculate_skills_match_of_ne_nil hres]
  have hmem : ("" : String) ∈ req.map normSkill :=
    List.mem_map.mpr ⟨r, hr, hnorm⟩
  have hmatch : matchesAnyResume (resume.map normSkill) "" = true := by
    obtain ⟨x, hx⟩ := List.exists_mem_of_ne_nil resume hres
    refine List.any_eq_true.mpr ⟨normSkill x, List.mem_map_of_mem _ hx, ?_⟩
    simp [skillPairMatch, containsSub, isSubList_nil]
  have hin : ("" : String) ∈ matchedSkills (resume.map normSkill) (req.map normSkill) :=
    List.mem_filter.mpr ⟨hmem, hmatch⟩
  refine ⟨hin, fun hcontra => ?_⟩
  have h2 := (List.mem_filter.mp hcontra).2
  have h3 : (matchedSkills (resume.map normSkill) (req.map normSkill)).contains ""
      = true := List.elem_eq_true_of_mem hin
  rw [h3] at h2
  exact absurd h2 (by decide)

/-- C10 witness: resume `["python"]` with required skill `"  "` (whitespace
only, normalizing to `""`). -/
theorem C10_empty_required_matched_witness :
    "" ∈ (calculate_skills_match ["python"] ["  "] []).matched_required ∧
    "" ∉ (calculate_skills_match ["python"] ["  "] []).missing_required :=
  C10_empty_required_matched ["python"] ["  "] [] (by decide) "  "
    (by decide) (by decide)

/-- C2 counterexample: on `"engineer engineer manager"` with `top_n = 1` the
extractor returns the bare token list `["engineer"]`; as in the Python
comparison `["engineer"] == [("engineer", 2)]`, a bare term is never equal to
a (term, frequency) pair, so the claimed return value is wrong. -/
theorem C2_counterexample :
    extract_keywords nltkStopwords "engineer engineer manager" 1 = ["engineer"] ∧
    (extract_keywords nltkStopwords "engineer engineer manager" 1).map
        (Sum.inl : String → String ⊕ (String × Nat)) ≠
      [Sum.inr ("engineer", 2)] :=
  ⟨by decide, by decide⟩

/-- C2 (amended): the extractor returns at most `top_n` bare terms (without
frequencies), namely the first components of the frequency table sorted by
descending frequency with ties kept in first-occurrence order; on
`"engineer engineer manager"` with `top_n = 1` it returns `["engineer"]`. -/
theorem C2_keywords_order (stop : List String) (t : String) (n : Nat) :
    (extract_keywords stop t n).length ≤ n ∧
    (∃ pairs : List (String × Nat),
      List.Sorted freqGe pairs ∧
      (∀ f, pairs.filter (fun p => p.2 == f) =
        (countFreqs (keywordTokens stop t)).filter (fun p => p.2 == f)) ∧
      extract_keywords stop t n = (pairs.take n).map Prod.fst) ∧
    extract_keywords nltkStopwords "engineer engineer manager" 1 = ["engineer"] := by
  refine ⟨?_, ⟨(countFreqs (keywordTokens stop t)).insertionSort freqGe,
    List.sorted_insertionSort freqGe _, fun f => filter_freq_insertionSort f _,
    ?_⟩, by decide⟩
  · unfold extract_keywords
    by_cases h : (t == "") = true
    · simp [h]
    · rw [if_neg h]
      rw [List.length_map, List.length_take]
      exact min_le_left _ _
  · unfold extract_keywords
    by_cases h : (t == "") = true
    · rw [if_pos h]
      have ht : t = "" := beq_iff_eq.mp h
      subst ht
      rw [show countFreqs (keywordTokens stop "") = [] from rfl]
      simp [List.insertionSort]
    · rw [if_neg h]

/-- C6: Scenario A — resume skills `{"python", "sql"}`, required
`["Python", "Java"]`, no preferred skills. -/
theorem C6_scenario_A :
    (calculate_skills_match ["python", "sql"] ["Python", "Java"] []).matched_required
        = ["python"] ∧
    (calculate_skills_match ["python", "sql"] ["Python", "Java"] []).missing_required
        = ["java"] ∧
    (calculate_skills_match ["python", "sql"] ["Python", "Java"] []).required_match_rate
        = some 50 ∧
    (calculate_skills_match ["python", "sql"] ["Python", "Java"] []).score = 40 := by
  have hm : matchedSkills ((["python", "sql"] : List String).map normSkill)
      ((["Python", "Java"] : List String).map normSkill) = ["python"] := by decide
  have hq : requiredScoreQ ((["python", "sql"] : List String).map normSkill)
      ((["Python", "Java"] : List String).map normSkill) = 1 / 2 := by
    unfold requiredScoreQ
    rw [if_neg (by decide), hm]
    norm_num [List.length_map]
  have hp : preferredScoreQ ((["python", "sql"] : List String).map normSkill)
      (([] : List String).map normSkill) = 0 := by
    simp [preferredScoreQ]
  rw [calculate_skills_match_of_ne_nil (by decide)]
  refine ⟨by decide, by decide, ?_, ?_⟩
  · show some (requiredScoreQ _ _ * 100) = some 50
    rw [hq]
    norm_num
  · show (requiredScoreQ _ _ * (8 / 10) + preferredScoreQ _ _ * (2 / 10)) * 100 = 40
    rw [hq, hp]
    norm_num

/-- C7: adding a resume skill that containment-matches a previously-unmatched
required skill strictly lengthens `matched_required` and does not decrease
the overall score. -/
theorem C7_match_monotonicity (resume req pref : List String) (s r : String)
    (hr : r ∈ req.map normSkill)
    (hunmatched : matchesAnyResume (resume.map normSkill) r = false)
    (hmatch : skillPairMatch r (normSkill s) = true) :
    (calculate_skills_match resume req pref).matched_required.length <
      (calculate_skills_match (resume ++ [s]) req pref).matched_required.length ∧
    (calculate_skills_match resume req pref).score ≤
      (calculate_skills_match (resume ++ [s]) req pref).score := by
  have hne' : resume ++ [s] ≠ [] := by simp
  have hmapnew : (resume ++ [s]).map normSkill =
      resume.map normSkill ++ [normSkill s] := by
    rw [List.map_append]
    rfl
  have hmatchnew : matchesAnyResume (resume.map normSkill ++ [normSkill s]) r
      = true := by
    unfold matchesAnyResume
    rw [List.any_append]
    simp [hmatch]
  rw [calculate_skills_match_of_ne_nil hne', hmapnew]
  by_cases hres : resume = []
  · subst hres
    rw [show calculate_skills_match [] req pref =
        { score := 0, matched_required := [], matched_preferred := [],
          missing_required := req, required_match_rate := none,
          preferred_match_rate := none } from rfl]
    constructor
    · show 0 < (matchedSkills ([].map normSkill ++ [normSkill s])
        (req.map normSkill)).length
      refine List.length_pos.mpr (List.ne_nil_of_mem (a := r) ?_)
      exact List.mem_filter.mpr ⟨hr, hmatchnew⟩
    · have h1 := requiredScoreQ_nonneg ([].map normSkill ++ [normSkill s])
        (req.map normSkill)
      have h2 := preferredScoreQ_nonneg ([].map normSkill ++ [normSkill s])
        (pref.map normSkill)
      show (0 : ℚ) ≤ _
      nlinarith
  · rw [calculate_skills_match_of_ne_nil hres]
    constructor
    · exact filter_length_lt _ _
        (matchesAnyResume_append (resume.map normSkill) (normSkill s)) hr
        hunmatched hmatchnew
    · have h1 := requiredScoreQ_mono (resume.map normSkill) (normSkill s)
        (req.map normSkill)
      have h2 := preferredScoreQ_mono (resume.map normSkill) (normSkill s)
        (pref.map normSkill)
      show (_ * (8 / 10) + _ * (2 / 10)) * 100 ≤
        (_ * (8 / 10) + _ * (2 / 10)) * 100
      nlinarith

/-- C7 witness: resume `["sql"]`, required `["python"]`, adding the resume
skill `"python"`. -/
theorem C7_match_monotonicity_witness :
    (calculate_skills_match ["sql"] ["python"] []).matched_required.length <
      (calculate_skills_match (["sql"] ++ ["python"]) ["python"] []).matched_required.length ∧
    (calculate_skills_match ["sql"] ["python"] []).score ≤
      (calculate_skills_match (["sql"] ++ ["python"]) ["python"] []).score :=
  C7_match_monotonicity ["sql"] ["python"] [] "python" "python"
    (by decide) (by decide) (by decide)

/-- C1 counterexample: `clean_text` is not idempotent — deleting the
disallowed `!` from `"a ! b"` leaves two adjacent spaces, which a second
application collapses. -/
theorem C1_counterexample :
    clean_text (clean_text "a ! b") ≠ clean_text "a ! b" := by decide

/-- C1 (amended): one application of `clean_text` need not be a fixed point,
but two are — `clean_text (clean_text t)` is unchanged by further
applications, for every string `t`. -/
theorem C1_double_clean_idempotent (s : String) :
    clean_text (clean_text (clean_text s)) = clean_text (clean_text s) :=
  congrArg String.mk (cleanChars_double_fix s.data)
